import Mathlib

/-!
Verification of the slots-gpt HTTP gateway (backend/cmd/slots-gpt/main.go).

The program is a single-endpoint HTTP server: it reads configuration from the
process environment, constructs an AWS session and a Bedrock client, and
registers one handler on /api/send-prompt that validates a JSON body
(PromptRequest), invokes the Bedrock model, and writes a JSON PromptResponse.

This file shallowly embeds that program:
  * `loadConfig` embeds the environment reads and the port default (main.go
    lines 32-38);
  * `runMain` embeds main's startup/exit control flow (session construction
    with log.Fatalf on error, then log.Fatal(http.ListenAndServe ...));
  * `decodePromptRequest` embeds what json.NewDecoder(r.Body).Decode(&req)
    does to the request body for the PromptRequest target type (Go
    encoding/json semantics: decode the first JSON value of the stream,
    ignore what follows a complete object/array, match object keys to the
    struct tags case-insensitively, ignore unknown keys, treat null as a
    no-op, fail on type mismatches);
  * `handleSendPrompt` embeds the anonymous handler function (main.go lines
    50-84), returning the HTTP response together with the list of Bedrock
    invocations made and the log lines written, so that temporal claims
    ("the client is never invoked unless ...") are statable.
-/

namespace SlotsGpt

/-- PromptRequest from main.go: the JSON body shape of /api/send-prompt. -/
structure PromptRequest where
  prompt : String
  model : String
deriving DecidableEq, Repr

/-- PromptResponse from main.go: the JSON shape of the success response. -/
structure PromptResponse where
  response : String
deriving DecidableEq, Repr

/-- An HTTP response as the handler produces it: status code, headers set,
and the full body written. -/
structure HttpResponse where
  status : Nat
  headers : List (String × String)
  body : String
deriving DecidableEq, Repr

/-- Embedding of Go's net/http `http.Error(w, msg, code)`: it sets a plain-text
content type and the nosniff header, writes the given status code, and writes
the message followed by a newline. -/
def httpError (msg : String) (code : Nat) : HttpResponse :=
  { status := code
    headers := [(("Content-Type"), ("text/plain; charset=utf-8")),
                (("X-Content-Type-Options"), ("nosniff"))]
    body := msg ++ ("\n") }

/-- The input of a Bedrock InvokeModel call as built by the handler
(bedrock.InvokeModelInput with InputText and ModelId). -/
structure InvokeModelInput where
  inputText : String
  modelId : String
deriving DecidableEq, Repr

/-- The output of a Bedrock InvokeModel call: OutputText is a *string in Go,
hence an optional value here (nil = none). -/
structure InvokeModelOutput where
  outputText : Option String
deriving DecidableEq, Repr

/-- Embedding of aws.StringValue: dereference a *string, mapping nil to "". -/
def stringValue : Option String → String
  | none => ("")
  | some s => s

/-- The four configuration values main reads from the environment. -/
structure Config where
  awsRegion : String
  awsAccessKey : String
  awsSecretKey : String
  port : String
deriving DecidableEq, Repr

/-- Embedding of Go's os.Getenv: an absent variable reads as "". The process
environment is a partial map from names to values. -/
def getenv (env : String → Option String) (k : String) : String :=
  (env k).getD ("")

/-- Embedding of main.go lines 32-38: read AWS_REGION, AWS_ACCESS_KEY_ID,
AWS_SECRET_ACCESS_KEY and PORT from the environment; default PORT to "3000"
when it reads as empty; no other transformation. -/
def loadConfig (env : String → Option String) : Config :=
  let port := getenv env ("PORT")
  { awsRegion := getenv env ("AWS_REGION")
    awsAccessKey := getenv env ("AWS_ACCESS_KEY_ID")
    awsSecretKey := getenv env ("AWS_SECRET_ACCESS_KEY")
    port := if port = ("") then ("3000") else port }

/-! ### JSON decoding (embedding of Go encoding/json for the handler's use)

The handler runs `json.NewDecoder(r.Body).Decode(&req)` with `req :
PromptRequest`. A json.Decoder reads the FIRST JSON value from the stream:
after a complete object or array it never examines the remaining bytes; after
a top-level literal, number or string it examines exactly one further byte,
which must be whitespace (or the end of input). Object keys are matched to
the struct's field tags ("prompt", "model") ASCII-case-insensitively; unknown
keys are skipped; a JSON null is a no-op for the target; a non-string value
for a matched field, or a top-level value that is not an object or null, is a
type error. The parser below implements the RFC 8259 value grammar on a fuel
that is structurally decreasing; `2 * length + 2` fuel is always enough
because every unit of fuel spent consumes at least one character or follows
one character-consuming step.
(Not modelled: surrogate-pair combination inside \u escapes.) -/

/-- A parsed JSON value. -/
inductive Json where
  | null
  | bool (b : Bool)
  | num (lit : String)
  | str (s : String)
  | arr (elems : List Json)
  | obj (members : List (String × Json))

/-- JSON whitespace, as in Go's encoding/json scanner. -/
def isWs (c : Char) : Bool :=
  c = (' ') || c = ('\t') || c = ('\n') || c = ('\r')

/-- Drop leading JSON whitespace. -/
def skipWs : List Char → List Char
  | [] => []
  | c :: cs => if isWs c then skipWs cs else c :: cs

/-- Decimal digit test (0-9). -/
def isDig (c : Char) : Bool :=
  ('0') ≤ c && c ≤ ('9')

/-- Split off the longest leading run of decimal digits. -/
def spanDigits : List Char → List Char × List Char
  | [] => ([], [])
  | c :: cs =>
    if isDig c then
      let p := spanDigits cs
      (c :: p.1, p.2)
    else ([], c :: cs)

/-- Value of one hex digit, if it is one. -/
def hexVal (c : Char) : Option Nat :=
  if ('0') ≤ c && c ≤ ('9') then some (c.toNat - (('0')).toNat)
  else if ('a') ≤ c && c ≤ ('f') then some (c.toNat - (('a')).toNat + 10)
  else if ('A') ≤ c && c ≤ ('F') then some (c.toNat - (('A')).toNat + 10)
  else none

/-- The single-character JSON escapes. -/
def unescape : Char → Option Char
  | ('"') => some ('"')
  | ('\\') => some ('\\')
  | ('/') => some ('/')
  | ('b') => some (Char.ofNat 8)
  | ('f') => some (Char.ofNat 12)
  | ('n') => some ('\n')
  | ('r') => some ('\r')
  | ('t') => some ('\t')
  | _ => none

/-- Parse the body of a JSON string after the opening quote, accumulating the
decoded characters; consumes through the closing quote and returns the rest.
Raw control characters are rejected, as in Go's scanner. -/
def parseStringBody (acc : String) : List Char → Option (String × List Char)
  | [] => none
  | c :: cs =>
    if c = ('"') then some (acc, cs)
    else if c = ('\\') then
      match cs with
      | ('u') :: h1 :: h2 :: h3 :: h4 :: rest =>
        match hexVal h1, hexVal h2, hexVal h3, hexVal h4 with
        | some a, some b, some d, some e =>
          parseStringBody (acc.push (Char.ofNat (((a * 16 + b) * 16 + d) * 16 + e))) rest
        | _, _, _, _ => none
      | e :: rest =>
        match unescape e with
        | some ec => parseStringBody (acc.push ec) rest
        | none => none
      | [] => none
    else if c.toNat < 32 then none
    else parseStringBody (acc.push c) cs

/-- Parse the fraction part of a number ('.' digits), if present. -/
def parseFrac (cs : List Char) : Option (List Char × List Char) :=
  match cs with
  | ('.') :: rest =>
    match spanDigits rest with
    | ([], _) => none
    | (d :: ds, r) => some (('.') :: d :: ds, r)
  | _ => some ([], cs)

/-- Parse the exponent part of a number ((e|E) sign? digits), if present. -/
def parseExp (cs : List Char) : Option (List Char × List Char) :=
  match cs with
  | c :: rest =>
    if c = ('e') || c = ('E') then
      match rest with
      | s :: rest2 =>
        if s = ('+') || s = ('-') then
          match spanDigits rest2 with
          | ([], _) => none
          | (d :: ds, r) => some (c :: s :: d :: ds, r)
        else
          match spanDigits rest with
          | ([], _) => none
          | (d :: ds, r) => some (c :: d :: ds, r)
      | [] => none
    else some ([], c :: rest)
  | [] => some ([], [])

/-- The integer part of a number whose first digit `d` has been consumed:
after a leading 0 no further integer digits are read (RFC 8259). -/
def parseIntPart (d : Char) (ds : List Char) : List Char × List Char :=
  if d = ('0') then ([d], ds)
  else (d :: (spanDigits ds).1, (spanDigits ds).2)

/-- Finish a number after its integer part: optional fraction, then optional
exponent; returns the assembled literal text and the rest. -/
def parseNumTail (ip : List Char × List Char) : Option (String × List Char) :=
  match parseFrac ip.2 with
  | none => none
  | some fp =>
    match parseExp fp.2 with
    | none => none
    | some ep => some (String.mk (ip.1 ++ fp.1 ++ ep.1), ep.2)

/-- Parse a JSON number whose first character `c` (a digit or '-') has been
consumed; returns the literal text and the rest. Follows the RFC 8259
grammar: a leading 0 is not followed by more integer digits. -/
def parseNumberBody (c : Char) (cs : List Char) : Option (String × List Char) :=
  if c = ('-') then
    match cs with
    | d :: ds =>
      if isDig d then
        parseNumTail (c :: (parseIntPart d ds).1, (parseIntPart d ds).2)
      else none
    | [] => none
  else parseNumTail (parseIntPart c cs)

mutual

/-- Parse one JSON value (fuel-indexed; `parseJson` supplies enough fuel). -/
def parseValue : Nat → List Char → Option (Json × List Char)
  | 0, _ => none
  | n + 1, cs =>
    match skipWs cs with
    | ('n') :: ('u') :: ('l') :: ('l') :: r => some (.null, r)
    | ('t') :: ('r') :: ('u') :: ('e') :: r => some (.bool true, r)
    | ('f') :: ('a') :: ('l') :: ('s') :: ('e') :: r => some (.bool false, r)
    | ('"') :: r =>
      match parseStringBody ("") r with
      | some (s, r2) => some (.str s, r2)
      | none => none
    | ('\x7b') :: r =>
      match skipWs r with
      | ('\x7d') :: r2 => some (.obj [], r2)
      | _ => parseMembers n r []
    | ('[') :: r =>
      match skipWs r with
      | (']') :: r2 => some (.arr [], r2)
      | _ => parseElems n r []
    | c :: r =>
      if c = ('-') || isDig c then
        match parseNumberBody c r with
        | some (lit, r2) => some (.num lit, r2)
        | none => none
      else none
    | [] => none

/-- Parse the members of an object after its '\x7b' (non-empty case),
accumulating key/value pairs in order; consumes through the closing '\x7d'. -/
def parseMembers : Nat → List Char → List (String × Json) →
    Option (Json × List Char)
  | 0, _, _ => none
  | n + 1, cs, acc =>
    match skipWs cs with
    | ('"') :: rest =>
      match parseStringBody ("") rest with
      | some (k, rest2) =>
        match skipWs rest2 with
        | (':') :: rest3 =>
          match parseValue n rest3 with
          | some (v, rest4) =>
            match skipWs rest4 with
            | (',') :: rest5 => parseMembers n rest5 (acc ++ [(k, v)])
            | ('\x7d') :: rest5 => some (.obj (acc ++ [(k, v)]), rest5)
            | _ => none
          | none => none
        | _ => none
      | none => none
    | _ => none

/-- Parse the elements of an array after its '[' (non-empty case),
accumulating values in order; consumes through the closing ']'. -/
def parseElems : Nat → List Char → List Json → Option (Json × List Char)
  | 0, _, _ => none
  | n + 1, cs, acc =>
    match parseValue n cs with
    | some (v, rest) =>
      match skipWs rest with
      | (',') :: rest2 => parseElems n rest2 (acc ++ [v])
      | (']') :: rest2 => some (.arr (acc ++ [v]), rest2)
      | _ => none
    | none => none

end

/-- ASCII lower-casing of one character, as Go's encoding/json folds field
names. -/
def lowerAscii (c : Char) : Char :=
  if ('A') ≤ c && c ≤ ('Z') then Char.ofNat (c.toNat + 32) else c

/-- ASCII-case-fold a field name for matching against a struct tag. -/
def foldKey (s : String) : String :=
  String.mk (s.data.map lowerAscii)

/-- Decode an object's key/value pairs into a PromptRequest, as Go does when
unmarshalling into the struct: keys are matched to the field tags "prompt"
and "model" ASCII-case-insensitively, later duplicates overwrite earlier
ones, unknown keys are skipped, a null value is a no-op, and a non-string
value for a matched field is a type error. -/
def decodeFields : List (String × Json) → PromptRequest →
    Except String PromptRequest
  | [], acc => .ok acc
  | (k, v) :: rest, acc =>
    if foldKey k = ("prompt") then
      match v with
      | .str s => decodeFields rest { acc with prompt := s }
      | .null => decodeFields rest acc
      | _ => .error ("json: cannot unmarshal value into field prompt of type string")
    else if foldKey k = ("model") then
      match v with
      | .str s => decodeFields rest { acc with model := s }
      | .null => decodeFields rest acc
      | _ => .error ("json: cannot unmarshal value into field model of type string")
    else decodeFields rest acc

/-- Unmarshal one JSON value into a PromptRequest: an object is decoded field
by field, null leaves the zero value, anything else is a type error. -/
def decodeStruct : Json → Except String PromptRequest
  | .obj kvs => decodeFields kvs { prompt := (""), model := ("") }
  | .null => .ok { prompt := (""), model := ("") }
  | _ => .error ("json: cannot unmarshal value into Go value of type main.PromptRequest")

/-- After a complete top-level value that is not an object or array, Go's
json.Decoder examines exactly one further byte, which must be whitespace or
end of input. -/
def trailOk : List Char → Bool
  | [] => true
  | c :: _ => isWs c

/-- Embedding of json.NewDecoder(body).Decode(&req) for req : PromptRequest,
on the body as a character list: parse the first JSON value (bytes after a
complete object or array are never examined) and unmarshal it into the
struct. -/
def decodeChars (cs : List Char) : Except String PromptRequest :=
  match parseValue (2 * cs.length + 2) cs with
  | none => .error ("invalid request payload: malformed JSON")
  | some (v, rem) =>
    match v with
    | .obj _ => decodeStruct v
    | .arr _ => decodeStruct v
    | _ =>
      if trailOk rem then decodeStruct v
      else .error ("invalid character after top-level value")

/-- The handler's body decode, on the body as a string. -/
def decodePromptRequest (body : String) : Except String PromptRequest :=
  decodeChars body.data

/-! ### JSON encoding (embedding of json.NewEncoder(w).Encode for
PromptResponse)

Go's json.Encoder marshals with HTML escaping on (escaping <, >, & and the
line separators U+2028/U+2029) and appends a newline after the value. -/

/-- One hex digit (lower case), as Go's encoder emits in \u escapes. -/
def hexDigitChar (n : Nat) : Char :=
  if n < 10 then Char.ofNat ((('0')).toNat + n)
  else Char.ofNat ((('a')).toNat + (n - 10))

/-- Encode one character of a JSON string, following Go's encoding/json
string escaping with HTML escaping enabled (the Encoder default). -/
def escapeChar (c : Char) : String :=
  if c = ('"') then ("\\\"")
  else if c = ('\\') then ("\\\\")
  else if c = ('\n') then ("\\n")
  else if c = ('\r') then ("\\r")
  else if c = ('\t') then ("\\t")
  else if c = ('<') then ("\\u003c")
  else if c = ('>') then ("\\u003e")
  else if c = ('&') then ("\\u0026")
  else if c.toNat < 32 then
    ("\\u00").push (hexDigitChar (c.toNat / 16)) |>.push (hexDigitChar (c.toNat % 16))
  else if c.toNat = 8232 then ("\\u2028")
  else if c.toNat = 8233 then ("\\u2029")
  else String.mk [c]

/-- Encode a string as a JSON string literal, Go style. -/
def encodeJsonString (s : String) : String :=
  ("\"") ++ String.join (s.data.map escapeChar) ++ ("\"")

/-- Embedding of json.NewEncoder(w).Encode(response) for a PromptResponse:
the object with the single "response" field, followed by the newline the
Encoder appends. -/
def encodePromptResponse (r : PromptResponse) : String :=
  ("\x7b\"response\":") ++ encodeJsonString r.response ++ ("\x7d\n")

/-! ### The /api/send-prompt handler -/

/-- Everything one run of the handler produces: the HTTP response written,
the Bedrock InvokeModel calls made (in order), and the log lines written. -/
structure HandlerResult where
  response : HttpResponse
  invoked : List InvokeModelInput
  logs : List String
deriving DecidableEq, Repr

/-- Embedding of the /api/send-prompt handler (main.go lines 50-84). The
Bedrock client is abstracted as the function `invokeModel`, returning either
the call's error or its output. The method check, the body decode, the
required-fields check, the InvokeModel call and the response writing follow
the source line by line. -/
def handleSendPrompt (method : String) (body : String)
    (invokeModel : InvokeModelInput → Except String InvokeModelOutput) :
    HandlerResult :=
  if method ≠ ("POST") then
    { response := httpError ("Invalid request method") 405
      invoked := []
      logs := [] }
  else
    match decodePromptRequest body with
    | .error _ =>
      { response := httpError ("Invalid request payload") 400
        invoked := []
        logs := [] }
    | .ok req =>
      if req.prompt = ("") || req.model = ("") then
        { response := httpError ("Prompt and model are required") 400
          invoked := []
          logs := [] }
      else
        let params : InvokeModelInput :=
          { inputText := req.prompt, modelId := req.model }
        match invokeModel params with
        | .error e =>
          { response := httpError ("Failed to invoke Bedrock model") 500
            invoked := [params]
            logs := [("Error invoking Bedrock model: ") ++ e] }
        | .ok resp =>
          { response :=
              { status := 200
                headers := [(("Content-Type"), ("application/json"))]
                body := encodePromptResponse
                  { response := stringValue resp.outputText } }
            invoked := [params]
            logs := [] }

/-- How the slots-gpt process can terminate, per main.go. `fatalSession` is
the log.Fatalf after session.NewSession fails (line 45); `fatalServe` is the
log.Fatal wrapped around http.ListenAndServe (line 87), which fires whenever
ListenAndServe returns (it only returns on error). Every terminating run of
main ends in one of these two exits. -/
inductive ProcessExit where
  | fatalSession (logMsg : String)
  | fatalServe (logMsg : String)
deriving DecidableEq, Repr

/-- Embedding of main's startup/exit control flow, parameterised by the
outcomes of its two effectful calls: the result of session.NewSession and the
error eventually returned by http.ListenAndServe (which blocks until it fails;
its error is passed to log.Fatal). -/
def runMain (sessionResult : Except String Unit) (serveErr : String) :
    ProcessExit :=
  match sessionResult with
  | .error e => .fatalSession (("Failed to create AWS session: ") ++ e)
  | .ok _ => .fatalServe serveErr

/-- A parse result `(v, rem)` is stable under appending further input: only a
number at the very end of the input could keep absorbing appended digits, so
for a number we require a delimiter (some remaining character) after it. -/
def numDelimited : Json → List Char → Prop
  | .num _, rem => rem ≠ []
  | _, _ => True

/-- Whether the first JSON value of the body is an object — the shape a
PromptRequest marshals to. (For a top-level object the Go decoder never
examines the bytes that follow it.) -/
def firstJsonIsObject (cs : List Char) : Bool :=
  match parseValue (2 * cs.length + 2) cs with
  | some (.obj _, _) => true
  | _ => false

/-! ### Claim theorems -/

/-- C1: a POST body that decodes to a PromptRequest with non-empty prompt and
model, on which the Bedrock call succeeds, yields status 200, a JSON
content-type header, and the JSON encoding of the object with a single
"response" field holding the client's output text. -/
theorem sendPrompt_success_ok :
    ∀ (body : String) (req : PromptRequest)
      (invoke : InvokeModelInput → Except String InvokeModelOutput)
      (out : InvokeModelOutput),
      decodePromptRequest body = .ok req →
      req.prompt ≠ ("") → req.model ≠ ("") →
      invoke { inputText := req.prompt, modelId := req.model } = .ok out →
      (handleSendPrompt ("POST") body invoke).response =
        { status := 200
          headers := [(("Content-Type"), ("application/json"))]
          body := ("\x7b\"response\":") ++
            encodeJsonString (stringValue out.outputText) ++ ("\x7d\n") } := by
  intro body req invoke out hdec hp hm hinv
  simp [handleSendPrompt, hdec, hp, hm, hinv, encodePromptResponse]

/-- Witness for C1: the spec's end-to-end scenario, with a stub client
returning "Hi there". -/
theorem sendPrompt_success_ok_witness :
    (handleSendPrompt ("POST")
        ("\x7b\"prompt\":\"Hello, Bedrock!\",\"model\":\"example-model-id\"\x7d")
        (fun _ => .ok { outputText := some ("Hi there") })).response =
      { status := 200
        headers := [(("Content-Type"), ("application/json"))]
        body := ("\x7b\"response\":") ++
          encodeJsonString (stringValue (some ("Hi there"))) ++ ("\x7d\n") } :=
  sendPrompt_success_ok
    ("\x7b\"prompt\":\"Hello, Bedrock!\",\"model\":\"example-model-id\"\x7d")
    { prompt := ("Hello, Bedrock!"), model := ("example-model-id") }
    (fun _ => .ok { outputText := some ("Hi there") })
    { outputText := some ("Hi there") }
    rfl (by decide) (by decide) rfl

/-- C2: a POST body that is valid JSON for the PromptRequest shape but has an
empty prompt or an empty model yields status 400 with body
"Prompt and model are required" (plus http.Error's newline), and the Bedrock
client is not invoked. -/
theorem sendPrompt_empty_fields_bad_request :
    ∀ (body : String) (req : PromptRequest)
      (invoke : InvokeModelInput → Except String InvokeModelOutput),
      decodePromptRequest body = .ok req →
      (req.prompt = ("") ∨ req.model = ("")) →
      handleSendPrompt ("POST") body invoke =
        { response := httpError ("Prompt and model are required") 400
          invoked := []
          logs := [] } := by
  intro body req invoke hdec hor
  rcases hor with h | h <;> simp [handleSendPrompt, hdec, h]

/-- Witness for C2: the spec's end-to-end scenario with an empty prompt. -/
theorem sendPrompt_empty_fields_bad_request_witness :
    handleSendPrompt ("POST") ("\x7b\"prompt\":\"\",\"model\":\"example-model-id\"\x7d")
        (fun _ => .ok { outputText := some ("Hi there") }) =
      { response := httpError ("Prompt and model are required") 400
        invoked := []
        logs := [] } :=
  sendPrompt_empty_fields_bad_request
    ("\x7b\"prompt\":\"\",\"model\":\"example-model-id\"\x7d")
    { prompt := (""), model := ("example-model-id") }
    (fun _ => .ok { outputText := some ("Hi there") })
    rfl (Or.inl rfl)

/-- C3: a POST body that does not decode as a PromptRequest yields status 400
immediately ("Invalid request payload"), and the Bedrock client is not
invoked. -/
theorem sendPrompt_malformed_body_bad_request :
    ∀ (body : String) (e : String)
      (invoke : InvokeModelInput → Except String InvokeModelOutput),
      decodePromptRequest body = .error e →
      handleSendPrompt ("POST") body invoke =
        { response := httpError ("Invalid request payload") 400
          invoked := []
          logs := [] } := by
  intro body e invoke hdec
  simp [handleSendPrompt, hdec]

/-- Witness for C3: a body that is not JSON at all. -/
theorem sendPrompt_malformed_body_bad_request_witness :
    handleSendPrompt ("POST") ("not json")
        (fun _ => .ok { outputText := some ("Hi") }) =
      { response := httpError ("Invalid request payload") 400
        invoked := []
        logs := [] } :=
  sendPrompt_malformed_body_bad_request ("not json")
    ("invalid request payload: malformed JSON")
    (fun _ => .ok { outputText := some ("Hi") })
    rfl

/-- C4: a request whose method is not POST yields status 405 with the fixed
"Invalid request method" response, no invocation and no logging; the entire
handler result is independent of the body and of the client (two runs that
differ only in payload coincide). -/
theorem sendPrompt_non_post_method_not_allowed :
    ∀ (method : String), method ≠ ("POST") →
      ∀ (body body2 : String)
        (invoke invoke2 : InvokeModelInput → Except String InvokeModelOutput),
        handleSendPrompt method body invoke =
          { response := httpError ("Invalid request method") 405
            invoked := []
            logs := [] } ∧
        handleSendPrompt method body invoke = handleSendPrompt method body2 invoke2 := by
  intro method hm body body2 invoke invoke2
  constructor <;> simp [handleSendPrompt, hm]

/-- Witness for C4: the spec's end-to-end scenario, a GET request. -/
theorem sendPrompt_non_post_method_not_allowed_witness :
    handleSendPrompt ("GET") ("\x7b\"prompt\":\"p\",\"model\":\"m\"\x7d")
        (fun _ => .ok { outputText := some ("Hi") }) =
      { response := httpError ("Invalid request method") 405
        invoked := []
        logs := [] } :=
  (sendPrompt_non_post_method_not_allowed ("GET") (by decide)
    ("\x7b\"prompt\":\"p\",\"model\":\"m\"\x7d") ("")
    (fun _ => .ok { outputText := some ("Hi") })
    (fun _ => .ok { outputText := none })).1

/-- C5: when the Bedrock call fails, the handler logs the error (with its
text) server-side and returns status 500 with the fixed body
"Failed to invoke Bedrock model" (plus http.Error's newline) — a literal that
does not depend on the upstream error, so every upstream error produces the
same response body. -/
theorem sendPrompt_invoke_failure_internal_error :
    ∀ (body : String) (req : PromptRequest)
      (invoke : InvokeModelInput → Except String InvokeModelOutput)
      (e : String),
      decodePromptRequest body = .ok req →
      req.prompt ≠ ("") → req.model ≠ ("") →
      invoke { inputText := req.prompt, modelId := req.model } = .error e →
      handleSendPrompt ("POST") body invoke =
        { response := httpError ("Failed to invoke Bedrock model") 500
          invoked := [{ inputText := req.prompt, modelId := req.model }]
          logs := [("Error invoking Bedrock model: ") ++ e] } := by
  intro body req invoke e hdec hp hm hinv
  simp [handleSendPrompt, hdec, hp, hm, hinv]

/-- Witness for C5: a stub client failing with a distinctive error text. -/
theorem sendPrompt_invoke_failure_internal_error_witness :
    handleSendPrompt ("POST") ("\x7b\"prompt\":\"p\",\"model\":\"m\"\x7d")
        (fun _ => .error ("ThrottlingException: rate exceeded")) =
      { response := httpError ("Failed to invoke Bedrock model") 500
        invoked := [{ inputText := ("p"), modelId := ("m") }]
        logs := [("Error invoking Bedrock model: ") ++
          ("ThrottlingException: rate exceeded")] } :=
  sendPrompt_invoke_failure_internal_error
    ("\x7b\"prompt\":\"p\",\"model\":\"m\"\x7d")
    { prompt := ("p"), model := ("m") }
    (fun _ => .error ("ThrottlingException: rate exceeded"))
    ("ThrottlingException: rate exceeded")
    rfl (by decide) (by decide) rfl

/-- C6: every Bedrock invocation the handler makes happens on a POST request
whose body decoded to a PromptRequest with non-empty prompt and non-empty
model, and carries exactly that prompt and model; in particular no
invocation happens before validation succeeds. -/
theorem invokeModel_only_after_validation :
    ∀ (method body : String)
      (invoke : InvokeModelInput → Except String InvokeModelOutput)
      (params : InvokeModelInput),
      params ∈ (handleSendPrompt method body invoke).invoked →
      method = ("POST") ∧
      ∃ req : PromptRequest, decodePromptRequest body = .ok req ∧
        req.prompt ≠ ("") ∧ req.model ≠ ("") ∧
        params = { inputText := req.prompt, modelId := req.model } := by
  intro method body invoke params h
  simp only [handleSendPrompt] at h
  split at h
  · simp at h
  · rename_i hmethod
    split at h
    · simp at h
    · rename_i req hdec
      split at h
      · simp at h
      · rename_i hfields
        simp only [Bool.or_eq_true, decide_eq_true_eq, not_or] at hfields
        have hmem : params = { inputText := req.prompt, modelId := req.model } := by
          split at h <;> simpa using h
        refine ⟨by simpa using hmethod, req, hdec, ?_, ?_, hmem⟩
        · simpa using hfields.1
        · simpa using hfields.2

/-- Witness for C6: the invocation made on a valid POST request indeed
carries its non-empty prompt and model. -/
theorem invokeModel_only_after_validation_witness :
    (("POST") : String) = ("POST") ∧
    ∃ req : PromptRequest,
      decodePromptRequest
          ("\x7b\"prompt\":\"Hello, Bedrock!\",\"model\":\"example-model-id\"\x7d") =
        .ok req ∧
      req.prompt ≠ ("") ∧ req.model ≠ ("") ∧
      ({ inputText := ("Hello, Bedrock!"), modelId := ("example-model-id") } :
          InvokeModelInput) =
        { inputText := req.prompt, modelId := req.model } :=
  invokeModel_only_after_validation ("POST")
    ("\x7b\"prompt\":\"Hello, Bedrock!\",\"model\":\"example-model-id\"\x7d")
    (fun _ => .ok { outputText := some ("Hi there") })
    { inputText := ("Hello, Bedrock!"), modelId := ("example-model-id") }
    (by
      have h : (handleSendPrompt ("POST")
          ("\x7b\"prompt\":\"Hello, Bedrock!\",\"model\":\"example-model-id\"\x7d")
          (fun _ => Except.ok { outputText := some ("Hi there") })).invoked =
          [{ inputText := ("Hello, Bedrock!"), modelId := ("example-model-id") }] := rfl
      rw [h]
      exact List.mem_singleton.mpr rfl)

/-- C7: the configuration loader returns the environment's values for the
region, access key and secret key unchanged, and returns "3000" for the port
exactly when PORT is absent or empty, else the environment's value
unchanged. -/
theorem loadConfig_reads_env_port_default :
    ∀ env : String → Option String,
      (loadConfig env).awsRegion = getenv env ("AWS_REGION") ∧
      (loadConfig env).awsAccessKey = getenv env ("AWS_ACCESS_KEY_ID") ∧
      (loadConfig env).awsSecretKey = getenv env ("AWS_SECRET_ACCESS_KEY") ∧
      ((env ("PORT") = none ∨ env ("PORT") = some ("")) →
        (loadConfig env).port = ("3000")) ∧
      (∀ p, env ("PORT") = some p → p ≠ ("") → (loadConfig env).port = p) := by
  intro env
  refine ⟨rfl, rfl, rfl, ?_, ?_⟩
  · rintro (h | h) <;> simp [loadConfig, getenv, h]
  · intro p h hp
    simp [loadConfig, getenv, h, hp]

/-- Witness for C7: with PORT set to "8080" the loader keeps it; the other
branches are exercised by the hypotheses discharged here. -/
theorem loadConfig_reads_env_port_default_witness :
    (loadConfig (fun k => if k = ("PORT") then some ("8080") else none)).port =
      ("8080") :=
  (loadConfig_reads_env_port_default
      (fun k => if k = ("PORT") then some ("8080") else none)).2.2.2.2
    ("8080") (by decide) (by decide)

/-- C9: when the Bedrock call succeeds with a nil OutputText, the handler
still answers 200 and encodes the empty string: the body is exactly
(applying aws.StringValue to nil) the JSON text for a response object with an
empty "response" string, followed by the encoder's newline. -/
theorem sendPrompt_nil_output_empty_response :
    ∀ (body : String) (req : PromptRequest)
      (invoke : InvokeModelInput → Except String InvokeModelOutput),
      decodePromptRequest body = .ok req →
      req.prompt ≠ ("") → req.model ≠ ("") →
      invoke { inputText := req.prompt, modelId := req.model } =
        .ok { outputText := none } →
      (handleSendPrompt ("POST") body invoke).response =
        { status := 200
          headers := [(("Content-Type"), ("application/json"))]
          body := ("\x7b\"response\":\"\"\x7d\n") } := by
  intro body req invoke hdec hp hm hinv
  simp [handleSendPrompt, hdec, hp, hm, hinv, encodePromptResponse,
    stringValue, encodeJsonString]
  decide

/-- Witness for C9: a stub client returning a nil OutputText. -/
theorem sendPrompt_nil_output_empty_response_witness :
    (handleSendPrompt ("POST") ("\x7b\"prompt\":\"p\",\"model\":\"m\"\x7d")
        (fun _ => .ok { outputText := none })).response =
      { status := 200
        headers := [(("Content-Type"), ("application/json"))]
        body := ("\x7b\"response\":\"\"\x7d\n") } :=
  sendPrompt_nil_output_empty_response
    ("\x7b\"prompt\":\"p\",\"model\":\"m\"\x7d")
    { prompt := ("p"), model := ("m") }
    (fun _ => .ok { outputText := none })
    rfl (by decide) (by decide) rfl

/-- C8 counterexample: session-construction failure is NOT the only fatal
error path — with a successfully constructed session, the log.Fatal wrapped
around http.ListenAndServe (main.go line 87) also terminates the process,
e.g. when the port is already bound. -/
theorem runMain_serve_exit_counterexample :
    runMain (.ok ()) ("listen tcp :3000: bind: address already in use") =
      .fatalServe ("listen tcp :3000: bind: address already in use") ∧
    ∀ m, ProcessExit.fatalServe ("listen tcp :3000: bind: address already in use") ≠
      ProcessExit.fatalSession m := by
  exact ⟨rfl, fun m h => ProcessExit.noConfusion h⟩

/-- C8 amended: session-construction failure terminates the process with the
logged message "Failed to create AWS session: ..."; the only other fatal path
is the log.Fatal around http.ListenAndServe, which fires with the serve
error when ListenAndServe returns; every terminating run of main ends in one
of these two exits. -/
theorem runMain_fatal_paths :
    ∀ (s : Except String Unit) (e : String),
      (∀ err, s = .error err →
        runMain s e = .fatalSession (("Failed to create AWS session: ") ++ err)) ∧
      (s = .ok () → runMain s e = .fatalServe e) ∧
      ((∃ m, runMain s e = .fatalSession m) ∨ (∃ m, runMain s e = .fatalServe m)) := by
  intro s e
  refine ⟨?_, ?_, ?_⟩
  · rintro err rfl; rfl
  · rintro rfl; rfl
  · cases s with
    | error err => exact Or.inl ⟨("Failed to create AWS session: ") ++ err, rfl⟩
    | ok u => exact Or.inr ⟨e, rfl⟩

/-- Witness for C8's amended theorem: a failed session construction exits
with the logged session message. -/
theorem runMain_fatal_paths_witness :
    runMain (.error ("no credentials")) ("srv") =
      .fatalSession (("Failed to create AWS session: ") ++ ("no credentials")) :=
  (runMain_fatal_paths (.error ("no credentials")) ("srv")).1 ("no credentials") rfl

/-! ### Parser stability under appended input

`json.Decoder.Decode` reads only the first JSON value of the stream. The
lemmas below make that precise for the embedded parser: a successful parse of
`cs` is unchanged when further bytes `t` are appended, as long as no number
sits at the very end of the consumed input (a number at the end of the stream
could absorb appended digits; inside an object this never happens, because a
member value is always followed by ',' or the closing brace). -/

theorem skipWs_append_cons (cs t r : List Char) (c : Char)
    (h : skipWs cs = c :: r) : skipWs (cs ++ t) = c :: (r ++ t) := by
  induction cs with
  | nil => simp [skipWs] at h
  | cons a as ih =>
    rw [List.cons_append]
    simp only [skipWs] at h ⊢
    by_cases ha : isWs a = true
    · rw [if_pos ha] at h ⊢
      exact ih h
    · rw [if_neg ha] at h ⊢
      rw [List.cons.injEq] at h
      obtain ⟨rfl, rfl⟩ := h
      rfl

theorem skipWs_ne_nil (cs r : List Char) (c : Char)
    (h : skipWs cs = c :: r) : cs ≠ [] := by
  intro hnil
  rw [hnil] at h
  simp [skipWs] at h

theorem spanDigits_append (cs t : List Char) :
    ∀ a b, spanDigits cs = (a, b) → b ≠ [] →
      spanDigits (cs ++ t) = (a, b ++ t) := by
  induction cs with
  | nil =>
    intro a b h hb
    simp only [spanDigits, Prod.mk.injEq] at h
    obtain ⟨rfl, rfl⟩ := h
    exact absurd rfl hb
  | cons c cs' ih =>
    intro a b h hb
    rw [List.cons_append]
    simp only [spanDigits] at h ⊢
    by_cases hc : isDig c = true
    · rw [if_pos hc] at h ⊢
      rw [Prod.mk.injEq] at h
      obtain ⟨rfl, rfl⟩ := h
      rw [ih _ _ rfl hb]
    · rw [if_neg hc] at h ⊢
      rw [Prod.mk.injEq] at h
      obtain ⟨rfl, rfl⟩ := h
      rfl

theorem parseFrac_append (cs t f r : List Char)
    (h : parseFrac cs = some (f, r)) (hr : r ≠ []) :
    parseFrac (cs ++ t) = some (f, r ++ t) := by
  cases cs with
  | nil =>
    simp only [parseFrac, Option.some.injEq, Prod.mk.injEq] at h
    obtain ⟨rfl, rfl⟩ := h
    exact absurd rfl hr
  | cons c rest =>
    rw [List.cons_append]
    by_cases hc : c = ('.')
    · subst hc
      simp only [parseFrac] at h ⊢
      cases hsd : spanDigits rest with
      | mk a b =>
        cases a with
        | nil =>
          simp only [hsd] at h
          simp at h
        | cons d ds =>
          simp only [hsd, Option.some.injEq, Prod.mk.injEq] at h
          obtain ⟨rfl, rfl⟩ := h
          simp only [spanDigits_append rest t _ _ hsd hr]
    · simp only [parseFrac] at h ⊢
      split at h
      · rename_i rest1 heq
        rw [List.cons.injEq] at heq
        exact absurd heq.1 hc
      · simp only [Option.some.injEq, Prod.mk.injEq] at h
        obtain ⟨rfl, rfl⟩ := h
        split
        · rename_i rest2 heq
          rw [List.cons.injEq] at heq
          exact absurd heq.1 hc
        · rfl

theorem parseExp_append (cs t f r : List Char)
    (h : parseExp cs = some (f, r)) (hr : r ≠ []) :
    parseExp (cs ++ t) = some (f, r ++ t) := by
  cases cs with
  | nil =>
    simp only [parseExp, Option.some.injEq, Prod.mk.injEq] at h
    obtain ⟨rfl, rfl⟩ := h
    exact absurd rfl hr
  | cons c rest =>
    rw [List.cons_append]
    simp only [parseExp] at h ⊢
    by_cases hc : (c = ('e') || c = ('E')) = true
    · rw [if_pos hc] at h ⊢
      cases rest with
      | nil => simp at h
      | cons s rest2 =>
        rw [List.cons_append]
        simp only [] at h ⊢
        by_cases hs : (s = ('+') || s = ('-')) = true
        · rw [if_pos hs] at h ⊢
          cases hsd : spanDigits rest2 with
          | mk a b =>
            cases a with
            | nil =>
              simp only [hsd] at h
              simp at h
            | cons d ds =>
              simp only [hsd, Option.some.injEq, Prod.mk.injEq] at h
              obtain ⟨rfl, rfl⟩ := h
              simp only [spanDigits_append rest2 t _ _ hsd hr]
        · rw [if_neg hs] at h ⊢
          cases hsd : spanDigits (s :: rest2) with
          | mk a b =>
            cases a with
            | nil =>
              simp only [hsd] at h
              simp at h
            | cons d ds =>
              simp only [hsd, Option.some.injEq, Prod.mk.injEq] at h
              obtain ⟨rfl, rfl⟩ := h
              simp only [show s :: (rest2 ++ t) = (s :: rest2) ++ t from rfl,
                spanDigits_append (s :: rest2) t _ _ hsd hr]
    · rw [if_neg hc] at h ⊢
      simp only [Option.some.injEq, Prod.mk.injEq] at h
      obtain ⟨rfl, rfl⟩ := h
      rfl

theorem parseIntPart_append (d : Char) (ds t a b : List Char)
    (h : parseIntPart d ds = (a, b)) (hb : b ≠ []) :
    parseIntPart d (ds ++ t) = (a, b ++ t) := by
  simp only [parseIntPart] at h ⊢
  by_cases hd : d = ('0')
  · rw [if_pos hd] at h ⊢
    rw [Prod.mk.injEq] at h
    obtain ⟨rfl, rfl⟩ := h
    rfl
  · rw [if_neg hd] at h ⊢
    rw [Prod.mk.injEq] at h
    obtain ⟨rfl, rfl⟩ := h
    rw [spanDigits_append ds t _ _ rfl hb]

theorem parseNumTail_nil (a : List Char) (lit : String) (r : List Char)
    (h : parseNumTail (a, []) = some (lit, r)) : r = [] := by
  simp only [parseNumTail, parseFrac, parseExp, Option.some.injEq,
    Prod.mk.injEq] at h
  exact h.2.symm

theorem parseNumTail_append (a b t : List Char) (lit : String) (r : List Char)
    (h : parseNumTail (a, b) = some (lit, r)) (hr : r ≠ []) :
    parseNumTail (a, b ++ t) = some (lit, r ++ t) := by
  simp only [parseNumTail] at h ⊢
  cases hf : parseFrac b with
  | none =>
    simp only [hf] at h
    exact Option.noConfusion h
  | some fp =>
    simp only [hf] at h
    cases he : parseExp fp.2 with
    | none =>
      simp only [he] at h
      exact Option.noConfusion h
    | some ep =>
      simp only [he, Option.some.injEq, Prod.mk.injEq] at h
      obtain ⟨rfl, rfl⟩ := h
      have hfp2 : fp.2 ≠ [] := by
        intro hnil
        rw [hnil] at he
        simp only [parseExp, Option.some.injEq] at he
        rw [← he] at hr
        exact hr rfl
      simp only [parseFrac_append b t fp.1 fp.2 (by rw [hf]) hfp2]
      simp only [parseExp_append fp.2 t ep.1 ep.2 (by rw [he]) hr]

theorem parseNumberBody_append (c : Char) (cs t : List Char) (lit : String)
    (r : List Char) (h : parseNumberBody c cs = some (lit, r)) (hr : r ≠ []) :
    parseNumberBody c (cs ++ t) = some (lit, r ++ t) := by
  simp only [parseNumberBody] at h ⊢
  by_cases hc : c = ('-')
  · rw [if_pos hc] at h ⊢
    cases cs with
    | nil => simp at h
    | cons d ds =>
      rw [List.cons_append]
      simp only [] at h ⊢
      by_cases hd : isDig d = true
      · rw [if_pos hd] at h ⊢
        cases hip : parseIntPart d ds with
        | mk a b =>
          rw [hip] at h
          have hb : b ≠ [] := by
            intro hnil
            rw [hnil] at h
            exact hr (parseNumTail_nil _ _ _ h)
          rw [parseIntPart_append d ds t a b hip hb]
          exact parseNumTail_append (c :: a) b t lit r h hr
      · rw [if_neg hd] at h
        simp at h
  · rw [if_neg hc] at h ⊢
    cases hip : parseIntPart c cs with
    | mk a b =>
      rw [hip] at h
      have hb : b ≠ [] := by
        intro hnil
        rw [hnil] at h
        exact hr (parseNumTail_nil _ _ _ h)
      rw [parseIntPart_append c cs t a b hip hb]
      exact parseNumTail_append a b t lit r h hr

theorem parseStringBody_append :
    ∀ (acc : String) (cs : List Char) (t : List Char) (s : String) (r : List Char),
      parseStringBody acc cs = some (s, r) →
      parseStringBody acc (cs ++ t) = some (s, r ++ t) := by
  intro acc cs
  induction acc, cs using parseStringBody.induct with
  | case1 acc =>
    intro t s r h
    rw [parseStringBody.eq_def] at h
    simp only [] at h
    exact Option.noConfusion h
  | case2 acc cs =>
    intro t s r h
    rw [List.cons_append]
    rw [parseStringBody.eq_def] at h ⊢
    simp only [] at h ⊢
    rw [if_true] at h ⊢
    simp only [Option.some.injEq, Prod.mk.injEq] at h
    obtain ⟨rfl, rfl⟩ := h
    rfl
  | case3 acc h1 h2 h3 h4 rest a b d e hE hD hB hA hq ih =>
    intro t s r h
    simp only [List.cons_append]
    rw [parseStringBody.eq_def] at h ⊢
    simp only [] at h ⊢
    rw [if_neg hq] at h ⊢
    simp only [hA, hB, hD, hE] at h ⊢
    exact ih t s r h
  | case4 acc h1 h2 h3 h4 rest hnone hq =>
    intro t s r h
    rw [parseStringBody.eq_def] at h
    simp only [] at h
    rw [if_neg hq] at h
    exact Option.noConfusion h
  | case5 acc e rest xne ec hu hq ih =>
    intro t s r h
    simp only [List.cons_append]
    rw [parseStringBody.eq_def] at h ⊢
    simp only [] at h ⊢
    rw [if_neg hq] at h ⊢
    rw [if_true] at h ⊢
    simp only [hu] at h
    split
    · rename_i c1 c2 c3 c4 rest3 heq2
      rw [List.cons.injEq] at heq2
      obtain ⟨rfl, -⟩ := heq2
      simp [unescape] at hu
    · rename_i e3 rest3 heq2
      rw [List.cons.injEq] at heq2
      obtain ⟨he3, hrest3⟩ := heq2
      subst he3
      subst hrest3
      simp only [hu]
      exact ih t s r h
    · rename_i heq2
      exact List.noConfusion heq2
  | case6 acc e rest xne hu hq =>
    intro t s r h
    rw [parseStringBody.eq_def] at h
    simp only [] at h
    rw [if_neg hq] at h
    rw [if_true] at h
    simp only [hu] at h
    exact Option.noConfusion h
  | case7 acc hq =>
    intro t s r h
    rw [parseStringBody.eq_def] at h
    simp only [] at h
    rw [if_neg hq] at h
    exact Option.noConfusion h
  | case8 acc c cs hq hb hlt =>
    intro t s r h
    rw [parseStringBody.eq_def] at h
    simp only [] at h
    rw [if_neg hq] at h
    rw [if_neg hb] at h
    rw [if_pos hlt] at h
    exact Option.noConfusion h
  | case9 acc c cs hq hb hnlt ih =>
    intro t s r h
    rw [List.cons_append]
    rw [parseStringBody.eq_def] at h ⊢
    simp only [] at h ⊢
    rw [if_neg hq] at h ⊢
    rw [if_neg hb] at h ⊢
    rw [if_neg hnlt] at h ⊢
    exact ih t s r h

theorem parseValue_step_null (n : Nat) (cs r : List Char)
    (h : skipWs cs = ('n') :: ('u') :: ('l') :: ('l') :: r) :
    parseValue (n + 1) cs = some (.null, r) := by
  simp only [parseValue]
  rw [h]
  rfl

theorem parseValue_step_true (n : Nat) (cs r : List Char)
    (h : skipWs cs = ('t') :: ('r') :: ('u') :: ('e') :: r) :
    parseValue (n + 1) cs = some (.bool true, r) := by
  simp only [parseValue]
  rw [h]
  rfl

theorem parseValue_step_false (n : Nat) (cs r : List Char)
    (h : skipWs cs = ('f') :: ('a') :: ('l') :: ('s') :: ('e') :: r) :
    parseValue (n + 1) cs = some (.bool false, r) := by
  simp only [parseValue]
  rw [h]
  rfl

theorem parseValue_step_str (n : Nat) (cs r : List Char)
    (h : skipWs cs = ('"') :: r) :
    parseValue (n + 1) cs =
      (match parseStringBody ("") r with
       | some (s, r2) => some (.str s, r2)
       | none => none) := by
  simp only [parseValue]
  rw [h]
  rfl

theorem parseValue_step_obj (n : Nat) (cs r : List Char)
    (h : skipWs cs = ('\x7b') :: r) :
    parseValue (n + 1) cs =
      (match skipWs r with
       | ('\x7d') :: r2 => some (.obj [], r2)
       | _ => parseMembers n r []) := by
  simp only [parseValue]
  rw [h]
  rfl

theorem parseValue_step_arr (n : Nat) (cs r : List Char)
    (h : skipWs cs = ('[') :: r) :
    parseValue (n + 1) cs =
      (match skipWs r with
       | (']') :: r2 => some (.arr [], r2)
       | _ => parseElems n r []) := by
  simp only [parseValue]
  rw [h]
  rfl

theorem parseValue_step_other (n : Nat) (cs r : List Char) (c : Char)
    (h : skipWs cs = c :: r) (hc : (c = ('-') || isDig c) = true) :
    parseValue (n + 1) cs =
      (match parseNumberBody c r with
       | some (lit, r2) => some (.num lit, r2)
       | none => none) := by
  simp only [parseValue]
  rw [h]
  split
  · rename_i r2 heq
    rw [List.cons.injEq] at heq
    obtain ⟨rfl, -⟩ := heq
    exact absurd hc (by decide)
  · rename_i r2 heq
    rw [List.cons.injEq] at heq
    obtain ⟨rfl, -⟩ := heq
    exact absurd hc (by decide)
  · rename_i r2 heq
    rw [List.cons.injEq] at heq
    obtain ⟨rfl, -⟩ := heq
    exact absurd hc (by decide)
  · rename_i r2 heq
    rw [List.cons.injEq] at heq
    obtain ⟨rfl, -⟩ := heq
    exact absurd hc (by decide)
  · rename_i r2 heq
    rw [List.cons.injEq] at heq
    obtain ⟨rfl, -⟩ := heq
    exact absurd hc (by decide)
  · rename_i r2 heq
    rw [List.cons.injEq] at heq
    obtain ⟨rfl, -⟩ := heq
    exact absurd hc (by decide)
  · rename_i c2 r2 d1 d2 d3 d4 d5 d6 heq
    rw [List.cons.injEq] at heq
    obtain ⟨rfl, rfl⟩ := heq
    rw [if_pos hc]
  · rename_i heq
    exact List.noConfusion heq

theorem parseMembers_step (n : Nat) (cs rest : List Char)
    (acc : List (String × Json)) (h : skipWs cs = ('"') :: rest) :
    parseMembers (n + 1) cs acc =
      (match parseStringBody ("") rest with
       | some (k, rest2) =>
         (match skipWs rest2 with
          | (':') :: rest3 =>
            (match parseValue n rest3 with
             | some (v, rest4) =>
               (match skipWs rest4 with
                | (',') :: rest5 => parseMembers n rest5 (acc ++ [(k, v)])
                | ('\x7d') :: rest5 => some (.obj (acc ++ [(k, v)]), rest5)
                | _ => none)
             | none => none)
          | _ => none)
       | none => none) := by
  simp only [parseMembers]
  rw [h]
  rfl

theorem parseMembers_head (n : Nat) (cs : List Char)
    (acc : List (String × Json)) (x : Json × List Char)
    (h : parseMembers n cs acc = some x) : ∃ r, skipWs cs = ('"') :: r := by
  cases n with
  | zero => exact Option.noConfusion h
  | succ n =>
    simp only [parseMembers] at h
    split at h
    · rename_i rest heq
      exact ⟨rest, heq⟩
    · exact Option.noConfusion h

theorem parseValue_head (n : Nat) (cs : List Char) (x : Json × List Char)
    (h : parseValue n cs = some x) :
    ∃ c r, skipWs cs = c :: r ∧ c ≠ (']') ∧ c ≠ ('\x7d') := by
  cases n with
  | zero => exact Option.noConfusion h
  | succ n =>
    simp only [parseValue] at h
    split at h
    · rename_i r heq
      exact ⟨_, _, heq, by decide, by decide⟩
    · rename_i r heq
      exact ⟨_, _, heq, by decide, by decide⟩
    · rename_i r heq
      exact ⟨_, _, heq, by decide, by decide⟩
    · rename_i r heq
      exact ⟨_, _, heq, by decide, by decide⟩
    · rename_i r heq
      exact ⟨_, _, heq, by decide, by decide⟩
    · rename_i r heq
      exact ⟨_, _, heq, by decide, by decide⟩
    · rename_i c r d1 d2 d3 d4 d5 d6 heq
      by_cases hcond : (c = ('-') || isDig c) = true
      · refine ⟨c, r, heq, ?_, ?_⟩
        · intro hcc
          subst hcc
          exact absurd hcond (by decide)
        · intro hcc
          subst hcc
          exact absurd hcond (by decide)
      · rw [if_neg hcond] at h
        exact Option.noConfusion h
    · exact Option.noConfusion h

theorem parseElems_head (n : Nat) (cs : List Char) (acc : List Json)
    (x : Json × List Char) (h : parseElems n cs acc = some x) :
    ∃ c r, skipWs cs = c :: r ∧ c ≠ (']') ∧ c ≠ ('\x7d') := by
  cases n with
  | zero => exact Option.noConfusion h
  | succ n =>
    simp only [parseElems] at h
    split at h
    · rename_i vv rest heqv
      exact parseValue_head n cs (vv, rest) heqv
    · exact Option.noConfusion h

theorem numDelimited_of_ne_nil (v : Json) (rem : List Char) (h : rem ≠ []) :
    numDelimited v rem := by
  cases v <;> first | exact h | trivial

mutual

theorem parseValue_append :
    ∀ (n k : Nat) (cs t : List Char) (v : Json) (rem : List Char),
      parseValue n cs = some (v, rem) → numDelimited v rem →
      parseValue (n + k) (cs ++ t) = some (v, rem ++ t)
  | 0, _, _, _, _, _, h, _ => Option.noConfusion h
  | n + 1, k, cs, t, v, rem, h, hnum => by
    rw [Nat.succ_add]
    simp only [parseValue] at h
    split at h
    · rename_i r heq
      simp only [Option.some.injEq, Prod.mk.injEq] at h
      obtain ⟨rfl, rfl⟩ := h
      have hs := skipWs_append_cons cs t _ _ heq
      simp only [List.cons_append] at hs
      exact parseValue_step_null (n + k) (cs ++ t) (r ++ t) hs
    · rename_i r heq
      simp only [Option.some.injEq, Prod.mk.injEq] at h
      obtain ⟨rfl, rfl⟩ := h
      have hs := skipWs_append_cons cs t _ _ heq
      simp only [List.cons_append] at hs
      exact parseValue_step_true (n + k) (cs ++ t) (r ++ t) hs
    · rename_i r heq
      simp only [Option.some.injEq, Prod.mk.injEq] at h
      obtain ⟨rfl, rfl⟩ := h
      have hs := skipWs_append_cons cs t _ _ heq
      simp only [List.cons_append] at hs
      exact parseValue_step_false (n + k) (cs ++ t) (r ++ t) hs
    · rename_i r heq
      have hs := skipWs_append_cons cs t _ _ heq
      simp only [List.cons_append] at hs
      rw [parseValue_step_str (n + k) (cs ++ t) (r ++ t) hs]
      split at h
      · rename_i s r2 heqs
        simp only [Option.some.injEq, Prod.mk.injEq] at h
        obtain ⟨rfl, rfl⟩ := h
        rw [parseStringBody_append ("") r t s r2 heqs]
      · exact Option.noConfusion h
    · rename_i r heq
      have hs := skipWs_append_cons cs t _ _ heq
      simp only [List.cons_append] at hs
      rw [parseValue_step_obj (n + k) (cs ++ t) (r ++ t) hs]
      split at h
      · rename_i r2 heq2
        simp only [Option.some.injEq, Prod.mk.injEq] at h
        obtain ⟨rfl, rfl⟩ := h
        have hs2 := skipWs_append_cons r t _ _ heq2
        simp only [List.cons_append] at hs2
        rw [hs2]
        rfl
      · obtain ⟨rr, hhead⟩ := parseMembers_head n r [] (v, rem) h
        have hs2 := skipWs_append_cons r t _ _ hhead
        simp only [List.cons_append] at hs2
        rw [hs2]
        exact parseMembers_append n k r t [] v rem h
    · rename_i r heq
      have hs := skipWs_append_cons cs t _ _ heq
      simp only [List.cons_append] at hs
      rw [parseValue_step_arr (n + k) (cs ++ t) (r ++ t) hs]
      split at h
      · rename_i r2 heq2
        simp only [Option.some.injEq, Prod.mk.injEq] at h
        obtain ⟨rfl, rfl⟩ := h
        have hs2 := skipWs_append_cons r t _ _ heq2
        simp only [List.cons_append] at hs2
        rw [hs2]
        rfl
      · obtain ⟨c2, rr, hhead, hne1, hne2⟩ := parseElems_head n r [] (v, rem) h
        have hs2 := skipWs_append_cons r t _ _ hhead
        simp only [List.cons_append] at hs2
        rw [hs2]
        split
        · rename_i r3 heq3
          rw [List.cons.injEq] at heq3
          exact absurd heq3.1 hne1
        · exact parseElems_append n k r t [] v rem h
    · rename_i c r d1 d2 d3 d4 d5 d6 heq
      by_cases hcond : (c = ('-') || isDig c) = true
      · rw [if_pos hcond] at h
        split at h
        · rename_i lit r2 heqn
          simp only [Option.some.injEq, Prod.mk.injEq] at h
          obtain ⟨rfl, rfl⟩ := h
          have hr2 : r2 ≠ [] := hnum
          have hs := skipWs_append_cons cs t _ _ heq
          rw [parseValue_step_other (n + k) (cs ++ t) (r ++ t) c hs hcond]
          rw [parseNumberBody_append c r t lit r2 heqn hr2]
        · exact Option.noConfusion h
      · rw [if_neg hcond] at h
        exact Option.noConfusion h
    · exact Option.noConfusion h

theorem parseMembers_append :
    ∀ (n k : Nat) (cs t : List Char) (acc : List (String × Json))
      (v : Json) (rem : List Char),
      parseMembers n cs acc = some (v, rem) →
      parseMembers (n + k) (cs ++ t) acc = some (v, rem ++ t)
  | 0, _, _, _, _, _, _, h => Option.noConfusion h
  | n + 1, k, cs, t, acc, v, rem, h => by
    rw [Nat.succ_add]
    simp only [parseMembers] at h
    split at h
    · rename_i rest heq
      have hs := skipWs_append_cons cs t _ _ heq
      rw [parseMembers_step (n + k) (cs ++ t) (rest ++ t) acc hs]
      split at h
      · rename_i kk rest2 heqs
        simp only [parseStringBody_append ("") rest t kk rest2 heqs]
        split at h
        · rename_i rest3 heq2
          have hs2 := skipWs_append_cons rest2 t _ _ heq2
          simp only [hs2]
          split at h
          · rename_i vv rest4 heqv
            split at h
            · rename_i rest5 heq3
              have hrest4 : rest4 ≠ [] := skipWs_ne_nil rest4 _ _ heq3
              have hv := parseValue_append n k rest3 t vv rest4 heqv
                (numDelimited_of_ne_nil vv rest4 hrest4)
              simp only [hv]
              have hs3 := skipWs_append_cons rest4 t _ _ heq3
              simp only [hs3]
              exact parseMembers_append n k rest5 t (acc ++ [(kk, vv)]) v rem h
            · rename_i rest5 heq3
              simp only [Option.some.injEq, Prod.mk.injEq] at h
              obtain ⟨rfl, rfl⟩ := h
              have hrest4 : rest4 ≠ [] := skipWs_ne_nil rest4 _ _ heq3
              have hv := parseValue_append n k rest3 t vv rest4 heqv
                (numDelimited_of_ne_nil vv rest4 hrest4)
              simp only [hv]
              have hs3 := skipWs_append_cons rest4 t _ _ heq3
              simp only [hs3]
            · exact Option.noConfusion h
          · exact Option.noConfusion h
        · exact Option.noConfusion h
      · exact Option.noConfusion h
    · exact Option.noConfusion h

theorem parseElems_append :
    ∀ (n k : Nat) (cs t : List Char) (acc : List Json)
      (v : Json) (rem : List Char),
      parseElems n cs acc = some (v, rem) →
      parseElems (n + k) (cs ++ t) acc = some (v, rem ++ t)
  | 0, _, _, _, _, _, _, h => Option.noConfusion h
  | n + 1, k, cs, t, acc, v, rem, h => by
    rw [Nat.succ_add]
    simp only [parseElems] at h
    split at h
    · rename_i vv rest heqv
      split at h
      · rename_i rest2 heq2
        have hrest : rest ≠ [] := skipWs_ne_nil rest _ _ heq2
        have hv := parseValue_append n k cs t vv rest heqv
          (numDelimited_of_ne_nil vv rest hrest)
        simp only [parseElems, hv]
        have hs2 := skipWs_append_cons rest t _ _ heq2
        simp only [hs2]
        exact parseElems_append n k rest2 t (acc ++ [vv]) v rem h
      · rename_i rest2 heq2
        simp only [Option.some.injEq, Prod.mk.injEq] at h
        obtain ⟨rfl, rfl⟩ := h
        have hrest : rest ≠ [] := skipWs_ne_nil rest _ _ heq2
        have hv := parseValue_append n k cs t vv rest heqv
          (numDelimited_of_ne_nil vv rest hrest)
        simp only [parseElems, hv]
        have hs2 := skipWs_append_cons rest t _ _ heq2
        simp only [hs2]
      · exact Option.noConfusion h
    · exact Option.noConfusion h

end

/-- C10: a POST body made of one JSON object that decodes to a PromptRequest,
followed by arbitrary trailing bytes, is not rejected as malformed — the
decoder reads only the first JSON value, so the request proceeds to field
validation and (when the fields are non-empty) to the Bedrock call, whose
input list then contains exactly the decoded prompt and model; and unknown
extra JSON fields inside the object are ignored, as the concrete decode in
the second conjunct shows. -/
theorem decode_ignores_trailing_and_unknown :
    (∀ (body rest : String) (req : PromptRequest),
        firstJsonIsObject body.data = true →
        decodePromptRequest body = .ok req →
        decodePromptRequest (body ++ rest) = .ok req ∧
        ∀ (invoke : InvokeModelInput → Except String InvokeModelOutput),
          req.prompt ≠ ("") → req.model ≠ ("") →
          (handleSendPrompt ("POST") (body ++ rest) invoke).invoked =
            [{ inputText := req.prompt, modelId := req.model }]) ∧
    decodePromptRequest
        ("\x7b\"prompt\":\"p\",\"model\":\"m\",\"extra\":[1,2.5e-3,\x7b\"x\":null\x7d],\"unknown\":true\x7d") =
      .ok { prompt := ("p"), model := ("m") } := by
  constructor
  · intro body rest req hobj hdec
    unfold firstJsonIsObject at hobj
    split at hobj
    · rename_i kvs rem heq
      simp only [decodePromptRequest, decodeChars, heq] at hdec
      have happ := parseValue_append (2 * body.data.length + 2)
        (2 * rest.data.length) body.data rest.data (.obj kvs) rem heq trivial
      have hdata : (body ++ rest).data = body.data ++ rest.data := rfl
      have hlen : 2 * (body.data ++ rest.data).length + 2 =
          2 * body.data.length + 2 + 2 * rest.data.length := by
        rw [List.length_append]
        ring
      have hdec2 : decodePromptRequest (body ++ rest) = .ok req := by
        simp only [decodePromptRequest, decodeChars, hdata, hlen, happ]
        exact hdec
      refine ⟨hdec2, ?_⟩
      intro invoke hp hm
      cases hi : invoke { inputText := req.prompt, modelId := req.model } <;>
        simp [handleSendPrompt, hdec2, hp, hm, hi]
    · exact absurd hobj (by simp)
  · rfl

/-- Witness for C10: a concrete object body with trailing garbage decodes to
its PromptRequest and still reaches the Bedrock call. -/
theorem decode_ignores_trailing_and_unknown_witness :
    decodePromptRequest
        (("\x7b\"prompt\":\"p\",\"model\":\"m\"\x7d") ++ (" trailing ]] garbage")) =
      .ok { prompt := ("p"), model := ("m") } ∧
    (handleSendPrompt ("POST")
        (("\x7b\"prompt\":\"p\",\"model\":\"m\"\x7d") ++ (" trailing ]] garbage"))
        (fun _ => .ok { outputText := some ("ok") })).invoked =
      [{ inputText := ("p"), modelId := ("m") }] := by
  have h := decode_ignores_trailing_and_unknown.1
    ("\x7b\"prompt\":\"p\",\"model\":\"m\"\x7d") (" trailing ]] garbage")
    { prompt := ("p"), model := ("m") } rfl rfl
  exact ⟨h.1, h.2 (fun _ => .ok { outputText := some ("ok") }) (by decide) (by decide)⟩

end SlotsGpt
